import Mathlib

/-!
Verification development for the `oob` package: out-of-band file-descriptor
passing over Unix domain sockets, together with the resolver utilities that
convert between descriptors, open files, connections and inodes.

The Go source is shallowly embedded as follows.

* Bytes are `Nat` values below 256; byte buffers are `List Nat`.
* A process's open-descriptor table maps descriptor numbers to the inode of
  the underlying kernel resource (`FdTable`).
* The ancillary (control) message encoding is modelled byte for byte after
  the Go `syscall` package for linux/amd64: `Cmsghdr` is 16 bytes
  (u64 length, s32 level, s32 type, little endian), `CmsgSpace`/`CmsgLen`
  align to 8, `SOL_SOCKET = 1` and `SCM_RIGHTS = 1`.
* Fallible Go functions return `Except GoError`; a Go runtime panic
  (index out of range) is the distinguished result `GoResult.panic`.
-/

/-- Error classes produced by the embedded code.  Each constructor stands for
one distinct error value or error class of the Go source. -/
inductive GoError where
  /-- `syscall.EINVAL`, as produced by the control-message parsers. -/
  | einval
  /-- `EBADF`-class failure: an operation on a descriptor that is not open. -/
  | ebadf
  /-- `ioutil.ReadDir("/proc/self/fd/")` failed (table cannot be enumerated). -/
  | readDirFailed
  /-- `strconv.ParseUint` failed on a directory entry name. -/
  | badName (s : String)
  /-- part_001 `ToFd`: "cannot find fd in /proc/../fd/* for inode %d". -/
  | notFound (ino : Nat)
  /-- utils.go `InodeToConn`: "No file found for inode %d". -/
  | noFileForInode (ino : Nat)
  /-- utils.go `ToFd`: "cannot extract fd from %+v". -/
  | cannotExtractFd
  /-- utils.go `ToInode`: "Unable to extract an inode for %+v". -/
  | cannotExtractInode
  /-- part_001 `ToFile`: "cannot create *os.File for %+v". -/
  | cannotCreateFile
  /-- part_001 `ToFd`: "fd %d is not a valid file descriptor". -/
  | invalidFd (fd : Nat)
  /-- `net.FileConn` failed with `ENOTSOCK`. -/
  | notASocket
deriving DecidableEq, Repr

/-- Result of running an embedded Go function: a value, a returned error, or a
runtime panic (index out of range). -/
inductive GoResult (α : Type) where
  | ok (a : α)
  | error (e : GoError)
  | panic
deriving DecidableEq, Repr

/-- A process's open-descriptor table: associates each open descriptor number
with the inode of the kernel resource it refers to. -/
abbrev FdTable := List (Nat × Nat)

/-- Add an open descriptor to a table. -/
def addFd (t : FdTable) (fd ino : Nat) : FdTable := (fd, ino) :: t

/-- Auxiliary linear search for the smallest free descriptor number at or
above `k`, with explicit fuel. -/
def allocFdAux (keys : List Nat) : Nat → Nat → Nat
  | 0, k => k
  | n + 1, k => if k ∈ keys then allocFdAux keys n (k + 1) else k

/-- The descriptor number the kernel assigns next: the lowest number not in
use in the table (POSIX lowest-free-descriptor rule, used by `dup` and by
`SCM_RIGHTS` reception). -/
def allocFd (t : FdTable) : Nat := allocFdAux (t.map Prod.fst) (t.length + 1) 0

/- ## Byte-level control-message encoding (Go `syscall`, linux/amd64) -/

/-- Little-endian 4-byte encoding of a 32-bit value (`int32` stores in the Go
source truncate to 32 bits, which `% 256` on each byte reproduces). -/
def encodeU32 (n : Nat) : List Nat :=
  [n % 256, n / 256 % 256, n / 65536 % 256, n / 16777216 % 256]

/-- Little-endian 8-byte encoding of a 64-bit value. -/
def encodeU64 (n : Nat) : List Nat :=
  [n % 256, n / 256 % 256, n / 65536 % 256, n / 16777216 % 256,
   n / 4294967296 % 256, n / 1099511627776 % 256,
   n / 281474976710656 % 256, n / 72057594037927936 % 256]

/-- Little-endian decoding of (the first four bytes of) a buffer. -/
def decodeU32 (b : List Nat) : Nat :=
  b.getD 0 0 + 256 * b.getD 1 0 + 65536 * b.getD 2 0 + 16777216 * b.getD 3 0

/-- Little-endian decoding of (the first eight bytes of) a buffer. -/
def decodeU64 (b : List Nat) : Nat :=
  b.getD 0 0 + 256 * b.getD 1 0 + 65536 * b.getD 2 0 + 16777216 * b.getD 3 0
    + 4294967296 * b.getD 4 0 + 1099511627776 * b.getD 5 0
    + 281474976710656 * b.getD 6 0 + 72057594037927936 * b.getD 7 0

/-- Decode the complete 4-byte groups of a buffer as 32-bit values, dropping a
trailing incomplete group — exactly the `len(data)>>2` sizing plus 4-byte
strides of Go's `ParseUnixRights` loop. -/
def u32Chunks : List Nat → List Nat
  | b0 :: b1 :: b2 :: b3 :: rest => decodeU32 [b0, b1, b2, b3] :: u32Chunks rest
  | _ => []

/-- `syscall.cmsgAlignOf` on linux/amd64: round up to a multiple of 8. -/
def cmsgAlignOf (n : Nat) : Nat := (n + 7) / 8 * 8

/-- `syscall.CmsgLen`: header size (16, already aligned) plus data length. -/
def cmsgLen (datalen : Nat) : Nat := 16 + datalen

/-- `syscall.CmsgSpace`: header size plus aligned data length. -/
def cmsgSpace (datalen : Nat) : Nat := 16 + cmsgAlignOf datalen

/-- A parsed control-message header (`syscall.Cmsghdr`): `len` is the u64
`cmsg_len` field, `level` and `typ` the s32 `cmsg_level`/`cmsg_type` fields.
`SOL_SOCKET = 1` and `SCM_RIGHTS = 1` on Linux. -/
structure Cmsghdr where
  len : Nat
  level : Nat
  typ : Nat
deriving DecidableEq, Repr

/-- `syscall.UnixRights`: a zeroed buffer of `CmsgSpace(4*n)` bytes holding one
`SCM_RIGHTS` control message whose data carries the descriptors as 32-bit
values. -/
def unixRights (fds : List Nat) : List Nat :=
  encodeU64 (cmsgLen (4 * fds.length)) ++ encodeU32 1 ++ encodeU32 1
    ++ (fds.map encodeU32).flatten
    ++ List.replicate (cmsgSpace (4 * fds.length) - cmsgLen (4 * fds.length)) 0

/-- `syscall.socketControlMessageHeaderAndData`: read the 16-byte header at the
front of `b`; reject it (EINVAL) unless `16 ≤ len ≤ |b|`; the data is
`b[16:len]`. -/
def headerAndData (b : List Nat) : Except GoError (Cmsghdr × List Nat) :=
  let h : Cmsghdr :=
    ⟨decodeU64 (b.take 8), decodeU32 ((b.drop 8).take 4), decodeU32 ((b.drop 12).take 4)⟩
  if h.len < 16 ∨ b.length < h.len then .error .einval
  else .ok (h, (b.take h.len).drop 16)

/-- The loop of `syscall.ParseSocketControlMessage`, reading successive
control messages at offsets `i, i + align(len), …` while a full header fits.
The fuel argument only bounds the recursion; each accepted header advances the
offset by at least 16, so fuel `|b| + 1` is never exhausted. -/
def parseSCMFrom (fuel : Nat) (b : List Nat) (i : Nat) :
    Except GoError (List (Cmsghdr × List Nat)) :=
  match fuel with
  | 0 => .ok []
  | fuel + 1 =>
    if i + 16 ≤ b.length then
      match headerAndData (b.drop i) with
      | .error e => .error e
      | .ok (h, d) =>
        match parseSCMFrom fuel b (i + cmsgAlignOf h.len) with
        | .error e => .error e
        | .ok rest => .ok ((h, d) :: rest)
    else .ok []

/-- `syscall.ParseSocketControlMessage`. -/
def parseSocketControlMessage (b : List Nat) :
    Except GoError (List (Cmsghdr × List Nat)) :=
  parseSCMFrom (b.length + 1) b 0

/-- `syscall.ParseUnixRights` on one control message.  A non-`SOL_SOCKET` or
non-`SCM_RIGHTS` header is EINVAL.  Otherwise Go allocates `len(data)/4` slots
but writes one per 4-byte stride while `i < len(data)`; when the data length is
not a multiple of 4 the final write is out of range — a panic. -/
def parseUnixRightsMsg (h : Cmsghdr) (data : List Nat) : GoResult (List Nat) :=
  if h.level ≠ 1 then .error .einval
  else if h.typ ≠ 1 then .error .einval
  else if data.length % 4 = 0 then .ok (u32Chunks data)
  else .panic

/-- The parsing tail of `UnixConn.RecvFD`, applied to the 24-byte
(`CmsgSpace(4)`) buffer filled by `Recvmsg`: parse the control messages, index
`msgs[0]` and `fds[0]` without bounds checks, and return `fds[0]`. -/
def recvFDfromBuf (buf : List Nat) : GoResult Nat :=
  match parseSocketControlMessage buf with
  | .error e => .error e
  | .ok [] => .panic
  | .ok ((h, d) :: _) =>
    match parseUnixRightsMsg h d with
    | .error e => .error e
    | .panic => .panic
    | .ok [] => .panic
    | .ok (fd :: _) => .ok fd

/- ## Resolver: dynamic values and process state -/

/-- The runtime representations taken by the resolver's dynamically typed
(empty-interface) arguments in this package: a raw descriptor (`uintptr`), an inode ordinal (`uint64`), an
open file handle (`*os.File`, carrying its descriptor and name), and a socket
connection (`net.Conn`, carrying the descriptor it wraps). -/
inductive Thing where
  | fd (n : Nat)
  | inode (n : Nat)
  | file (fd : Nat) (name : String)
  | conn (fd : Nat)
deriving DecidableEq, Repr

/-- The process-local environment the resolver reads: the open-descriptor
table, the result of `ioutil.ReadDir("/proc/self/fd/")` (`none` when the
enumeration itself fails), the process id, and the set of inodes that are
sockets (`net.FileConn` succeeds exactly on those). -/
structure ProcState where
  table : FdTable
  fdDir : Option (List String)
  pid : Nat
  sockInodes : List Nat
deriving DecidableEq, Repr

/-- One decimal digit of an entry name, or `none`. -/
def digitVal (c : Char) : Option Nat :=
  if '0' ≤ c ∧ c ≤ '9' then some (c.toNat - 48) else none

/-- Accumulate decimal digits; any non-digit character fails the whole parse. -/
def parseDigits (acc : Nat) : List Char → Option Nat
  | [] => some acc
  | c :: cs =>
    match digitVal c with
    | none => none
    | some d => parseDigits (acc * 10 + d) cs

/-- `strconv.ParseUint(s, 10, 64)`: decimal digits only, nonempty, value below
`2^64`. -/
def parseUint64 (s : String) : Option Nat :=
  match s.data with
  | [] => none
  | cs =>
    match parseDigits 0 cs with
    | none => none
    | some n => if n < 18446744073709551616 then some n else none

/-- `(*os.File).Stat()` followed by `fi.Sys().(*syscall.Stat_t).Ino` for the
file wrapping descriptor `fd`: the inode of the open descriptor, or an
`EBADF`-class error when the descriptor is not open. -/
def statFd (t : FdTable) (fd : Nat) : Except GoError Nat :=
  match List.lookup fd t with
  | some ino => .ok ino
  | none => .error .ebadf

/-- The conventional name `fmt.Sprintf("/proc/%d/fd/%d", os.Getpid(), fd)`. -/
def procName (pid fd : Nat) : String :=
  "/proc/" ++ toString pid ++ "/fd/" ++ toString fd

/- ### Current revision (src/utils.go, src/unixconn.go) -/

/-- utils.go `ToFile`: `os.NewFile(fd, "/proc/<pid>/fd/<fd>")` — wraps the
descriptor in a handle without duplicating it. -/
def ToFile (pid fd : Nat) : Thing := .file fd (procName pid fd)

/-- utils.go `ToFd`: a `uintptr` is returned unchanged; anything with `Fd()`
(an `*os.File`) yields its stored descriptor; anything with `File()` (a
`net.Conn`) yields the descriptor of the *duplicate* that `File()` creates —
allocating a new descriptor for the connection's resource; a `uint64` inode
matches no branch. -/
def ToFd (st : ProcState) : Thing → Except GoError Nat × ProcState
  | .fd n => (.ok n, st)
  | .file fd _ => (.ok fd, st)
  | .conn fd =>
    match List.lookup fd st.table with
    | none => (.error .ebadf, st)
    | some ino =>
      (.ok (allocFd st.table), { st with table := addFd st.table (allocFd st.table) ino })
  | .inode _ => (.error .cannotExtractFd, st)

/-- utils.go `ToInode`: an `*os.File` or `uintptr` is statted directly; a
`net.Conn` matches the `filer` interface, so `File()` duplicates its
descriptor and the duplicate is statted; a `uint64` matches no branch and
reports that no inode can be extracted. -/
def ToInode (st : ProcState) : Thing → Except GoError Nat × ProcState
  | .file fd _ => (statFd st.table fd, st)
  | .fd n => (statFd st.table n, st)
  | .conn fd =>
    match List.lookup fd st.table with
    | none => (.error .ebadf, st)
    | some ino => (.ok ino, { st with table := addFd st.table (allocFd st.table) ino })
  | .inode _ => (.error .cannotExtractInode, st)

/-- The loop of utils.go `InodeToFile`: for each directory entry in order,
a name that fails `strconv.ParseUint` aborts the whole scan with `nil`;
otherwise the entry's descriptor is statted and the first one whose inode
matches is returned via `ToFile`. -/
def inodeToFileLoop (st : ProcState) (ino : Nat) : List String → Option Thing
  | [] => none
  | e :: rest =>
    match parseUint64 e with
    | none => none
    | some fd =>
      match statFd st.table fd with
      | .ok i => if i = ino then some (ToFile st.pid fd) else inodeToFileLoop st ino rest
      | .error _ => inodeToFileLoop st ino rest

/-- utils.go `InodeToFile`: scan `/proc/self/fd/`; `nil` both when the
enumeration fails and when no open descriptor maps to the inode. -/
def InodeToFile (st : ProcState) (ino : Nat) : Option Thing :=
  match st.fdDir with
  | none => none
  | some es => inodeToFileLoop st ino es

/- ### Historical revision (src/unnamed/part_001) -/

/-- The scan loop shared by part_001 `ToFd` and `ToInode` on an inode
argument: a name that fails to parse is returned as an error; a parsed
descriptor that stats to the sought inode succeeds with that descriptor;
stat failures are skipped. -/
def scanFdLoop (st : ProcState) (ino : Nat) : List String → Except GoError Nat
  | [] => .error (.notFound ino)
  | e :: rest =>
    match parseUint64 e with
    | none => .error (.badName e)
    | some fd =>
      match statFd st.table fd with
      | .ok i => if i = ino then .ok fd else scanFdLoop st ino rest
      | .error _ => scanFdLoop st ino rest

/-- part_001 `ToFd`: a `uintptr` is validated by `os.NewFile` (which rejects
descriptors that are negative as `int`, i.e. at least `2^63`) and returned
unchanged; a `uint64` inode triggers the `/proc/self/fd/` scan; an `*os.File`
or `net.Conn` matches the `syscallconner` interface, whose `Control` callback
passes the raw descriptor without duplicating it. -/
def ToFdV1 (st : ProcState) : Thing → Except GoError Nat
  | .fd n => if 9223372036854775808 ≤ n then .error (.invalidFd n) else .ok n
  | .inode ino =>
    match st.fdDir with
    | none => .error .readDirFailed
    | some es => scanFdLoop st ino es
  | .file fd _ => .ok fd
  | .conn fd => .ok fd

/-- part_001 `ToFile`: an `*os.File` is returned unchanged; otherwise the
argument is resolved to a descriptor via `ToFd` and wrapped by
`os.NewFile(fd, "/proc/<pid>/fd/<fd>")`; a resolution failure is reported as
"cannot create *os.File". -/
def ToFileV1 (st : ProcState) : Thing → Except GoError Thing
  | .file fd name => .ok (.file fd name)
  | x =>
    match ToFdV1 st x with
    | .ok fd => .ok (.file fd (procName st.pid fd))
    | .error _ => .error .cannotCreateFile

/-- part_001 `ToConn`: a `net.Conn` is returned unchanged; otherwise the
argument is resolved to a file and `net.FileConn` duplicates its descriptor,
failing with `ENOTSOCK` when the underlying resource is not a socket. -/
def ToConnV1 (st : ProcState) : Thing → Except GoError Thing × ProcState
  | .conn fd => (.ok (.conn fd), st)
  | x =>
    match ToFileV1 st x with
    | .error e => (.error e, st)
    | .ok (.file fd _) =>
      match List.lookup fd st.table with
      | none => (.error .ebadf, st)
      | some ino =>
        if ino ∈ st.sockInodes then
          (.ok (.conn (allocFd st.table)), { st with table := addFd st.table (allocFd st.table) ino })
        else (.error .notASocket, st)
    | .ok _ => (.error .notASocket, st)

/-- The validation loop of part_001 `ToInode` on a `uint64` argument: each
entry name must parse (a parse failure is returned as an error); an entry
whose descriptor stats to the given inode confirms it; falling off the end of
the table also returns the inode, successfully. -/
def scanInodeLoop (st : ProcState) (ino : Nat) : List String → Except GoError Nat
  | [] => .ok ino
  | e :: rest =>
    match parseUint64 e with
    | none => .error (.badName e)
    | some fd =>
      match statFd st.table fd with
      | .ok i => if i = ino then .ok ino else scanInodeLoop st ino rest
      | .error _ => scanInodeLoop st ino rest

/-- part_001 `ToInode`: a `uint64` is taken as an inode and re-validated by
scanning `/proc/self/fd/` (the scan's outcome does not make validation
failure an error: the inode is returned either way); any other argument is
resolved to a file via `ToFile` and statted. -/
def ToInodeV1 (st : ProcState) : Thing → Except GoError Nat
  | .inode ino =>
    match st.fdDir with
    | none => .error .readDirFailed
    | some es => scanInodeLoop st ino es
  | x =>
    match ToFileV1 st x with
    | .error e => .error e
    | .ok (.file fd _) => statFd st.table fd
    | .ok _ => .error .cannotExtractInode

/- ## Descriptor channel (src/unixconn.go `UnixConn.SendFD` / `UnixConn.RecvFD`) -/

/-- One message queued on the Unix socket from sender to receiver: the
ordinary payload bytes and the kernel resources (inodes) whose references the
attached `SCM_RIGHTS` control message carries. -/
structure Msg where
  payload : List Nat
  res : List Nat
deriving DecidableEq, Repr

/-- The two connected endpoints of a Unix-domain socket: each process's
open-descriptor table, each process's descriptor for its endpoint, and the
in-flight queue from sender to receiver. -/
structure ChanWorld where
  sender : ProcState
  receiver : ProcState
  sSock : Nat
  rSock : Nat
  queue : List Msg
deriving DecidableEq, Repr

/-- Kernel side of `sendmsg` control data (`__scm_send`): every control
message must be `SOL_SOCKET`/`SCM_RIGHTS` (anything else is EINVAL, `none`
here); the descriptor numbers are the complete 32-bit groups of each
message's data. -/
def scmRightsFds : List (Cmsghdr × List Nat) → Option (List Nat)
  | [] => some []
  | (h, d) :: rest =>
    if h.level = 1 ∧ h.typ = 1 then (scmRightsFds rest).map (u32Chunks d ++ ·)
    else none

/-- Look up every descriptor of a list in a table; `none` (EBADF) if any is
not open. -/
def lookupAll (t : FdTable) : List Nat → Option (List Nat)
  | [] => some []
  | f :: fs =>
    match List.lookup f t with
    | none => none
    | some i => (lookupAll t fs).map (i :: ·)

/-- Kernel installation of received resources (`scm_detach_fds`): each inode
gets the receiving process's lowest free descriptor, in order.  Returns the
grown table and the new descriptor numbers. -/
def installFds (t : FdTable) : List Nat → FdTable × List Nat
  | [] => (t, [])
  | i :: is =>
    let f := allocFd t
    let (t', fs) := installFds (addFd t f i) is
    (t', f :: fs)

/-- Pad a buffer with zero bytes up to length `n` (the Go receive buffer is
zero-initialized and `RecvFD` parses all of it, not just the bytes the kernel
wrote). -/
def padTo (n : Nat) (b : List Nat) : List Nat := b ++ List.replicate (n - b.length) 0

/-- unixconn.go `UnixConn.SendFD`: `s.UnixConn.File()` duplicates the socket
descriptor in the sender (the lowest free descriptor, per `dup`); the rights
buffer `syscall.UnixRights(int(fd))` carries the one descriptor `fd`
(truncated to 32 bits by the `int32` store); `syscall.Sendmsg` passes a `nil`
payload, so the kernel parses the rights buffer, takes a reference to each
named open resource (EBADF if `fd` is not open) and queues one message with
zero payload bytes. -/
def SendFD (w : ChanWorld) (fd : Nat) : Except GoError Unit × ChanWorld :=
  match List.lookup w.sSock w.sender.table with
  | none => (.error .ebadf, w)
  | some sockIno =>
    let sT := addFd w.sender.table (allocFd w.sender.table) sockIno
    let w1 := { w with sender := { w.sender with table := sT } }
    match parseSocketControlMessage (unixRights [fd]) with
    | .error _ => (.error .einval, w1)
    | .ok msgs =>
      match scmRightsFds msgs with
      | none => (.error .einval, w1)
      | some fds =>
        match lookupAll sT fds with
        | none => (.error .ebadf, w1)
        | some inos => (.ok (), { w1 with queue := w1.queue ++ [⟨[], inos⟩] })

/-- unixconn.go `UnixConn.RecvFD`: `s.UnixConn.File()` duplicates the socket
descriptor in the receiver; `buf := make([]byte, syscall.CmsgSpace(4))` is a
zeroed 24-byte buffer; `syscall.Recvmsg` with a `nil` payload consumes at most
one queued message — when one is pending the kernel installs its resources
as fresh descriptors (at most the two that fit the 24-byte control buffer)
and writes the corresponding `SCM_RIGHTS` encoding into `buf`; when none is
pending (peer has nothing queued / sent nothing before closing) the buffer
stays zeroed, which the parsing tail rejects as `EINVAL` — the error the
code's own comment documents.  The parsed first descriptor is returned. -/
def RecvFD (w : ChanWorld) : GoResult Nat × ChanWorld :=
  match List.lookup w.rSock w.receiver.table with
  | none => (.error .ebadf, w)
  | some sockIno =>
    let rT1 := addFd w.receiver.table (allocFd w.receiver.table) sockIno
    match w.queue with
    | [] =>
      (recvFDfromBuf (List.replicate 24 0),
       { w with receiver := { w.receiver with table := rT1 } })
    | m :: rest =>
      let p := installFds rT1 (m.res.take (min m.res.length 2))
      (recvFDfromBuf (padTo 24 ((unixRights p.2).take 24)),
       { w with receiver := { w.receiver with table := p.1 }, queue := rest })

/-- A concrete pair of connected processes used to exercise the channel: the
sender has its socket endpoint open as descriptor 0 (inode 50) and a file
open as descriptor 3 (inode 100); the receiver has the peer endpoint open as
descriptor 0 and an unrelated resource as descriptor 1 (inode 9). -/
def sampleWorld : ChanWorld :=
  ⟨⟨[(0, 50), (3, 100)], none, 1, []⟩, ⟨[(0, 50), (1, 9)], none, 2, []⟩, 0, 0, []⟩

/-- `sampleWorld` with one single-descriptor message (inode 100) pending. -/
def sampleWorldQ : ChanWorld :=
  ⟨⟨[(0, 50), (3, 100)], none, 1, []⟩, ⟨[(0, 50), (1, 9)], none, 2, []⟩, 0, 0, [⟨[], [100]⟩]⟩

deriving instance DecidableEq for Except

/- ## Supporting lemmas -/

theorem decodeU32_encodeU32 (n : Nat) : decodeU32 (encodeU32 n) = n % 4294967296 := by
  simp [decodeU32, encodeU32]
  have h1 : n % 4294967296 = n % 256 + 256 * (n / 256 % 16777216) := by
    rw [show (4294967296 : Nat) = 256 * 16777216 from rfl]; exact Nat.mod_mul
  have h2 : n / 256 % 16777216 = n / 256 % 256 + 256 * (n / 256 / 256 % 65536) := by
    rw [show (16777216 : Nat) = 256 * 65536 from rfl]; exact Nat.mod_mul
  have h3 : n / 256 / 256 % 65536 = n / 256 / 256 % 256 + 256 * (n / 256 / 256 / 256 % 256) := by
    rw [show (65536 : Nat) = 256 * 256 from rfl]; exact Nat.mod_mul
  have e2 : n / 256 / 256 = n / 65536 := by rw [Nat.div_div_eq_div_mul]
  have e3 : n / 65536 / 256 = n / 16777216 := by rw [Nat.div_div_eq_div_mul]
  rw [h1, h2, h3, e2, e3]
  ring

theorem u32Chunks_encodeU32 (n : Nat) : u32Chunks (encodeU32 n) = [n % 4294967296] := by
  have := decodeU32_encodeU32 n
  simp [encodeU32, u32Chunks] at this ⊢
  simpa [decodeU32] using this

theorem unixRights_one (fd : Nat) :
    unixRights [fd] =
      20 :: 0 :: 0 :: 0 :: 0 :: 0 :: 0 :: 0 :: 1 :: 0 :: 0 :: 0 :: 1 :: 0 :: 0 :: 0 ::
        (encodeU32 fd ++ [0, 0, 0, 0]) := by
  simp [unixRights, encodeU64, cmsgLen, cmsgSpace, cmsgAlignOf]
  rfl

theorem parseSCM_unixRights_one (fd : Nat) :
    parseSocketControlMessage (unixRights [fd]) = .ok [(⟨20, 1, 1⟩, encodeU32 fd)] := by
  rw [unixRights_one]
  simp [parseSocketControlMessage, parseSCMFrom, headerAndData, decodeU64, decodeU32,
    encodeU32, cmsgAlignOf]

theorem unixRights_one_length (fd : Nat) : (unixRights [fd]).length = 24 := by
  rw [unixRights_one]; simp [encodeU32]

theorem encodeU32_length (n : Nat) : (encodeU32 n).length = 4 := by
  simp [encodeU32]

theorem recvFD_buf_one (fd : Nat) :
    recvFDfromBuf (unixRights [fd]) = .ok (fd % 4294967296) := by
  simp only [recvFDfromBuf, parseSCM_unixRights_one, parseUnixRightsMsg, encodeU32_length,
    u32Chunks_encodeU32]
  norm_num

theorem padTo_unixRights_one (fd : Nat) :
    padTo 24 ((unixRights [fd]).take 24) = unixRights [fd] := by
  have h := unixRights_one_length fd
  rw [List.take_of_length_le (by omega)]
  simp [padTo, h]

theorem allocFdAux_spec (keys : List Nat) :
    ∀ n k, (∃ j, j ∉ keys ∧ k ≤ j ∧ j < k + n) →
      allocFdAux keys n k ∉ keys ∧ allocFdAux keys n k < k + n := by
  intro n
  induction n with
  | zero => intro k ⟨j, _, hkj, hjk⟩; omega
  | succ n ih =>
    intro k ⟨j, hj, hkj, hjk⟩
    by_cases hk : k ∈ keys
    · have hne : j ≠ k := fun h => hj (h ▸ hk)
      have := ih (k + 1) ⟨j, hj, by omega, by omega⟩
      simp only [allocFdAux, if_pos hk]
      exact ⟨this.1, by omega⟩
    · simp only [allocFdAux, if_neg hk]
      exact ⟨hk, by omega⟩

theorem exists_free (keys : List Nat) : ∃ j, j ∉ keys ∧ j < keys.length + 1 := by
  by_contra h
  push_neg at h
  have hsub : List.range (keys.length + 1) ⊆ keys := by
    intro j hj
    by_contra hj'
    have h2 := h j hj'
    have h3 := List.mem_range.mp hj
    omega
  have := (List.subperm_of_subset (List.nodup_range _) hsub).length_le
  simp at this

theorem allocFd_spec (t : FdTable) :
    allocFd t ∉ t.map Prod.fst ∧ allocFd t ≤ t.length := by
  obtain ⟨j, hj, hlt⟩ := exists_free (t.map Prod.fst)
  rw [List.length_map] at hlt
  have := allocFdAux_spec (t.map Prod.fst) (t.length + 1) 0 ⟨j, hj, Nat.zero_le _, by omega⟩
  unfold allocFd
  exact ⟨this.1, by omega⟩

theorem lookup_eq_none_of_not_mem (t : FdTable) (k : Nat) (h : k ∉ t.map Prod.fst) :
    List.lookup k t = none := by
  induction t with
  | nil => rfl
  | cons p t ih =>
    simp only [List.map_cons, List.mem_cons] at h
    push_neg at h
    have hb : (k == p.1) = false := beq_eq_false_iff_ne.mpr h.1
    simp [List.lookup, hb, ih h.2]

theorem lookup_addFd (t : FdTable) (f i k : Nat) :
    List.lookup k (addFd t f i) = if k = f then some i else List.lookup k t := by
  by_cases hkf : k = f
  · subst hkf; simp [addFd, List.lookup]
  · have hb : (k == f) = false := beq_eq_false_iff_ne.mpr hkf
    simp [addFd, List.lookup, hb, hkf]
theorem SendFD_eq (w : ChanWorld) (fd sockIno ino : Nat)
    (hsock : List.lookup w.sSock w.sender.table = some sockIno)
    (hfd : List.lookup (fd % 4294967296)
      (addFd w.sender.table (allocFd w.sender.table) sockIno) = some ino) :
    SendFD w fd =
      (.ok (),
       { w with
         sender := { w.sender with table := addFd w.sender.table (allocFd w.sender.table) sockIno },
         queue := w.queue ++ [⟨[], [ino]⟩] }) := by
  simp only [SendFD, hsock, parseSCM_unixRights_one, scmRightsFds, u32Chunks_encodeU32]
  simp [lookupAll, hfd]

theorem RecvFD_eq_one (w : ChanWorld) (pl : List Nat) (ino sockIno : Nat) (rest : List Msg)
    (hsock : List.lookup w.rSock w.receiver.table = some sockIno)
    (hq : w.queue = ⟨pl, [ino]⟩ :: rest)
    (hlen : w.receiver.table.length + 2 < 4294967296) :
    (RecvFD w).1 = .ok (allocFd (addFd w.receiver.table (allocFd w.receiver.table) sockIno))
    ∧ (RecvFD w).2.receiver.table
        = addFd (addFd w.receiver.table (allocFd w.receiver.table) sockIno)
            (allocFd (addFd w.receiver.table (allocFd w.receiver.table) sockIno)) ino
    ∧ (RecvFD w).2.queue = rest
    ∧ (RecvFD w).2.sender = w.sender := by
  have halloc := allocFd_spec (addFd w.receiver.table (allocFd w.receiver.table) sockIno)
  have hlt : allocFd (addFd w.receiver.table (allocFd w.receiver.table) sockIno) < 4294967296 := by
    have h2 := halloc.2
    have h3 : (addFd w.receiver.table (allocFd w.receiver.table) sockIno).length
        = w.receiver.table.length + 1 := by simp [addFd]
    omega
  simp only [RecvFD, hsock, hq]
  simp only [List.length_cons, List.length_nil, installFds, padTo_unixRights_one, recvFD_buf_one]
  simp [Nat.mod_eq_of_lt hlt]
theorem scanFdLoop_found (st : ProcState) (ino : Nat) :
    ∀ (pre : List String) (e : String) (post : List String) (fd : Nat),
      (∀ p ∈ pre, ∃ fp, parseUint64 p = some fp ∧ statFd st.table fp ≠ .ok ino) →
      parseUint64 e = some fd → statFd st.table fd = .ok ino →
      scanFdLoop st ino (pre ++ e :: post) = .ok fd := by
  intro pre
  induction pre with
  | nil =>
    intro e post fd _ hparse hstat
    simp [scanFdLoop, hparse, hstat]
  | cons p pre ih =>
    intro e post fd hpre hparse hstat
    obtain ⟨fp, hp, hne⟩ := hpre p (List.mem_cons_self p pre)
    have hrest : ∀ q ∈ pre, ∃ fq, parseUint64 q = some fq ∧ statFd st.table fq ≠ .ok ino :=
      fun q hq => hpre q (List.mem_cons_of_mem p hq)
    simp only [List.cons_append, scanFdLoop, hp]
    cases hs : statFd st.table fp with
    | ok i =>
      have hi : i ≠ ino := fun h => hne (h ▸ hs)
      simp [hi, ih e post fd hrest hparse hstat]
    | error err => simp [ih e post fd hrest hparse hstat]

theorem scanFdLoop_none (st : ProcState) (ino : Nat) :
    ∀ es : List String,
      (∀ p ∈ es, ∃ fp, parseUint64 p = some fp ∧ statFd st.table fp ≠ .ok ino) →
      scanFdLoop st ino es = .error (.notFound ino) := by
  intro es
  induction es with
  | nil => intro _; rfl
  | cons p es ih =>
    intro hes
    obtain ⟨fp, hp, hne⟩ := hes p (List.mem_cons_self p es)
    have hrest := fun q hq => hes q (List.mem_cons_of_mem p hq)
    simp only [scanFdLoop, hp]
    cases hs : statFd st.table fp with
    | ok i =>
      have hi : i ≠ ino := fun h => hne (h ▸ hs)
      simp [hi, ih hrest]
    | error err => simp [ih hrest]

theorem scanInodeLoop_clean (st : ProcState) (ino : Nat) :
    ∀ es : List String,
      (∀ p ∈ es, ∃ fp, parseUint64 p = some fp) →
      scanInodeLoop st ino es = .ok ino := by
  intro es
  induction es with
  | nil => intro _; rfl
  | cons p es ih =>
    intro hes
    obtain ⟨fp, hp⟩ := hes p (List.mem_cons_self p es)
    have hrest := fun q hq => hes q (List.mem_cons_of_mem p hq)
    simp only [scanInodeLoop, hp]
    cases hs : statFd st.table fp with
    | ok i =>
      by_cases hi : i = ino
      · simp [hi]
      · simp [hi, ih hrest]
    | error err => simp [ih hrest]

theorem inodeToFileLoop_abort (st : ProcState) (ino : Nat) :
    ∀ (pre : List String) (bad : String) (post : List String),
      (∀ p ∈ pre, ∃ fp, parseUint64 p = some fp ∧ statFd st.table fp ≠ .ok ino) →
      parseUint64 bad = none →
      inodeToFileLoop st ino (pre ++ bad :: post) = none := by
  intro pre
  induction pre with
  | nil =>
    intro bad post _ hbad
    simp [inodeToFileLoop, hbad]
  | cons p pre ih =>
    intro bad post hpre hbad
    obtain ⟨fp, hp, hne⟩ := hpre p (List.mem_cons_self p pre)
    have hrest := fun q hq => hpre q (List.mem_cons_of_mem p hq)
    simp only [List.cons_append, inodeToFileLoop, hp]
    cases hs : statFd st.table fp with
    | ok i =>
      have hi : i ≠ ino := fun h => hne (h ▸ hs)
      simp [hi, ih bad post hrest hbad]
    | error err => simp [ih bad post hrest hbad]
/-- Claim C7: resolution is idempotent — utils.go `ToFd` returns a `uintptr`
descriptor unchanged with the descriptor table untouched (no new descriptor
allocated), part_001 `ToFile` returns an `*os.File` unchanged, and part_001
`ToConn` returns a `net.Conn` unchanged with the table untouched. -/
theorem claim_C7 :
    (∀ (st : ProcState) (n : Nat), ToFd st (.fd n) = (.ok n, st))
    ∧ (∀ (st : ProcState) (f : Nat) (name : String),
        ToFileV1 st (.file f name) = .ok (.file f name))
    ∧ (∀ (st : ProcState) (c : Nat), ToConnV1 st (.conn c) = (.ok (.conn c), st)) :=
  ⟨fun _ _ => rfl, fun _ _ _ => rfl, fun _ _ => rfl⟩

/-- Claim C8: for an open resource held by a Resource Handle (`*os.File`),
resolving to a descriptor, wrapping with utils.go `ToFile` and resolving
again yields the same descriptor. -/
theorem claim_C8 (st : ProcState) (pid : Nat) (R : Thing) (fdR : Nat)
    (hfile : ∃ f name, R = .file f name)
    (hres : (ToFd st R).1 = .ok fdR) :
    (ToFd st (ToFile pid fdR)).1 = .ok fdR := by
  obtain ⟨f, name, rfl⟩ := hfile
  simp only [ToFd, Except.ok.injEq] at hres
  simp [ToFd, ToFile, hres]

theorem claim_C8_witness : (ToFd ⟨[], none, 0, []⟩ (ToFile 7 5)).1 = .ok 5 :=
  claim_C8 ⟨[], none, 0, []⟩ 7 (.file 5 "x") 5 ⟨5, "x", rfl⟩ rfl

/-- Claim C9: part_001 `ToFile` on a value that is not already an `*os.File`
resolves it to a descriptor and wraps that descriptor in a new handle named
exactly `"/proc/<pid>/fd/<descriptor>"` for the current process id. -/
theorem claim_C9 (st : ProcState) (x : Thing) (fd : Nat)
    (hnot : ∀ f name, x ≠ .file f name)
    (hres : ToFdV1 st x = .ok fd) :
    ToFileV1 st x = .ok (.file fd (procName st.pid fd)) := by
  cases x with
  | file f name => exact absurd rfl (hnot f name)
  | fd n => simp [ToFileV1, hres]
  | inode i => simp [ToFileV1, hres]
  | conn c => simp [ToFileV1, hres]

theorem claim_C9_witness :
    ToFileV1 ⟨[], none, 3, []⟩ (.fd 5) = .ok (.file 5 (procName 3 5)) :=
  claim_C9 ⟨[], none, 3, []⟩ (.fd 5) 5 (fun _ _ h => Thing.noConfusion h) rfl

/-- Claim C5: part_001 `ToFd` on an inode — inode discovery — fails with the
"cannot enumerate" error when the descriptor directory cannot be read,
returns the first enumerated descriptor whose inode equals the given one, and
fails with the distinct "cannot find fd for inode" error when no enumerated
descriptor maps to the inode. -/
theorem claim_C5 :
    (∀ (st : ProcState) (ino : Nat), st.fdDir = none →
        ToFdV1 st (.inode ino) = .error .readDirFailed)
    ∧ (∀ (st : ProcState) (ino : Nat) (pre : List String) (e : String) (post : List String)
        (fd : Nat),
        st.fdDir = some (pre ++ e :: post) →
        (∀ p ∈ pre, ∃ fp, parseUint64 p = some fp ∧ statFd st.table fp ≠ .ok ino) →
        parseUint64 e = some fd → statFd st.table fd = .ok ino →
        ToFdV1 st (.inode ino) = .ok fd)
    ∧ (∀ (st : ProcState) (ino : Nat) (es : List String),
        st.fdDir = some es →
        (∀ p ∈ es, ∃ fp, parseUint64 p = some fp ∧ statFd st.table fp ≠ .ok ino) →
        ToFdV1 st (.inode ino) = .error (.notFound ino))
    ∧ (∀ ino : Nat, GoError.notFound ino ≠ GoError.readDirFailed) := by
  refine ⟨?_, ?_, ?_, ?_⟩
  · intro st ino hdir
    simp [ToFdV1, hdir]
  · intro st ino pre e post fd hdir hpre hparse hstat
    simp [ToFdV1, hdir, scanFdLoop_found st ino pre e post fd hpre hparse hstat]
  · intro st ino es hdir hes
    simp [ToFdV1, hdir, scanFdLoop_none st ino es hes]
  · intro ino h
    exact GoError.noConfusion h

theorem claim_C5_witness :
    ToFdV1 ⟨[(3, 50), (5, 77)], some ["3", "5"], 1, []⟩ (.inode 77) = .ok 5
    ∧ ToFdV1 ⟨[(3, 50)], some ["3"], 1, []⟩ (.inode 77) = .error (.notFound 77)
    ∧ ToFdV1 ⟨[(3, 50)], none, 1, []⟩ (.inode 77) = .error .readDirFailed :=
  ⟨claim_C5.2.1 ⟨[(3, 50), (5, 77)], some ["3", "5"], 1, []⟩ 77 ["3"] "5" [] 5 rfl
      (by
        intro p hp
        simp only [List.mem_singleton] at hp
        subst hp
        exact ⟨3, by decide, by decide⟩)
      (by decide) (by decide),
   claim_C5.2.2.1 ⟨[(3, 50)], some ["3"], 1, []⟩ 77 ["3"] rfl
      (by
        intro p hp
        simp only [List.mem_singleton] at hp
        subst hp
        exact ⟨3, by decide, by decide⟩),
   claim_C5.1 ⟨[(3, 50)], none, 1, []⟩ 77 rfl⟩

/-- Claim C6: part_001 `ToInode` on a value that is already an inode performs
the descriptor-table scan (so an enumeration failure is reported), and when
the scan runs over well-formed entries it returns the inode successfully —
both when some open descriptor maps to it and when none does. -/
theorem claim_C6 :
    (∀ (st : ProcState) (ino : Nat) (es : List String),
        st.fdDir = some es → (∀ p ∈ es, ∃ fp, parseUint64 p = some fp) →
        ToInodeV1 st (.inode ino) = .ok ino)
    ∧ (∀ (st : ProcState) (ino : Nat), st.fdDir = none →
        ToInodeV1 st (.inode ino) = .error .readDirFailed) := by
  constructor
  · intro st ino es hdir hes
    simp [ToInodeV1, hdir, scanInodeLoop_clean st ino es hes]
  · intro st ino hdir
    simp [ToInodeV1, hdir]

theorem claim_C6_witness :
    ToInodeV1 ⟨[(3, 50)], some ["3"], 1, []⟩ (.inode 50) = .ok 50
    ∧ ToInodeV1 ⟨[(3, 50)], some ["3"], 1, []⟩ (.inode 99) = .ok 99 :=
  ⟨claim_C6.1 ⟨[(3, 50)], some ["3"], 1, []⟩ 50 ["3"] rfl
      (by
        intro p hp
        simp only [List.mem_singleton] at hp
        subst hp
        exact ⟨3, by decide⟩),
   claim_C6.1 ⟨[(3, 50)], some ["3"], 1, []⟩ 99 ["3"] rfl
      (by
        intro p hp
        simp only [List.mem_singleton] at hp
        subst hp
        exact ⟨3, by decide⟩)⟩

/-- Claim C10: utils.go `InodeToFile` aborts the whole scan and returns `nil`
as soon as a directory entry name fails to parse as an unsigned integer, even
when a later entry is a descriptor whose inode matches the query. -/
theorem claim_C10 (st : ProcState) (ino : Nat) (pre : List String) (bad : String)
    (post : List String)
    (hdir : st.fdDir = some (pre ++ bad :: post))
    (hpre : ∀ p ∈ pre, ∃ fp, parseUint64 p = some fp ∧ statFd st.table fp ≠ .ok ino)
    (hbad : parseUint64 bad = none)
    (hlater : ∃ g ∈ post, ∃ fg, parseUint64 g = some fg ∧ statFd st.table fg = .ok ino) :
    InodeToFile st ino = none := by
  simp [InodeToFile, hdir, inodeToFileLoop_abort st ino pre bad post hpre hbad]

theorem claim_C10_witness :
    InodeToFile ⟨[(5, 77)], some ["abc", "5"], 1, []⟩ 77 = none :=
  claim_C10 ⟨[(5, 77)], some ["abc", "5"], 1, []⟩ 77 [] "abc" ["5"] rfl
    (fun p hp => absurd hp (List.not_mem_nil p))
    (by decide)
    ⟨"5", by simp, 5, by decide, by decide⟩
theorem parseSCMFrom_succ_ne_nil (fuel : Nat) (b : List Nat) (i : Nat)
    (hfit : i + 16 ≤ b.length) : parseSCMFrom (fuel + 1) b i ≠ .ok [] := by
  unfold parseSCMFrom
  simp only [if_pos hfit]
  split
  · simp
  · split <;> simp

/-- Claim C3: calling `RecvFD` when no ancillary message is pending surfaces
the invalid-argument error class (`EINVAL`) unchanged — the call makes one
receive attempt, consumes nothing, and returns no descriptor. -/
theorem claim_C3 (w : ChanWorld) (rIno : Nat)
    (hsock : List.lookup w.rSock w.receiver.table = some rIno)
    (hq : w.queue = []) :
    (RecvFD w).1 = .error .einval ∧ (RecvFD w).2.queue = [] := by
  simp [RecvFD, hsock, hq]
  decide

theorem claim_C3_witness :
    (RecvFD ⟨⟨[(0, 50)], none, 1, []⟩, ⟨[(0, 50)], none, 2, []⟩, 0, 0, []⟩).1 = .error .einval
    ∧ (RecvFD ⟨⟨[(0, 50)], none, 1, []⟩, ⟨[(0, 50)], none, 2, []⟩, 0, 0, []⟩).2.queue = [] :=
  claim_C3 ⟨⟨[(0, 50)], none, 1, []⟩, ⟨[(0, 50)], none, 2, []⟩, 0, 0, []⟩ 50 rfl rfl

/-- Claim C4, refuted: an `SCM_RIGHTS` control message whose data carries zero
descriptors (header length exactly 16, level and type `SOL_SOCKET` and
`SCM_RIGHTS`) parses successfully into an empty rights list, and `RecvFD`
then indexes `fds[0]` out of range — a crash, not a returned error. -/
theorem claim_C4_counterexample :
    recvFDfromBuf (encodeU64 16 ++ encodeU32 1 ++ encodeU32 1 ++ List.replicate 8 0)
      = .panic := by decide

/-- Claim C4, amended: when parsing the ancillary data fails with an error — a
malformed control-message header, or a first message that is not
`SOL_SOCKET`/`SCM_RIGHTS` — `RecvFD` returns that error to the caller, and a
successfully parsed 24-byte buffer always yields at least one control message
(so the `msgs[0]` access is safe); but a first message whose rights list
parses to zero descriptors makes `RecvFD` index out of bounds instead of
returning an error. -/
theorem claim_C4 :
    (∀ (buf : List Nat) (e : GoError),
        parseSocketControlMessage buf = .error e → recvFDfromBuf buf = .error e)
    ∧ (∀ (buf : List Nat) (h : Cmsghdr) (d : List Nat) (rest : List (Cmsghdr × List Nat))
        (e : GoError),
        parseSocketControlMessage buf = .ok ((h, d) :: rest) →
        parseUnixRightsMsg h d = .error e → recvFDfromBuf buf = .error e)
    ∧ (∀ buf : List Nat, buf.length = 24 → parseSocketControlMessage buf ≠ .ok [])
    ∧ (∀ (buf : List Nat) (h : Cmsghdr) (d : List Nat) (rest : List (Cmsghdr × List Nat)),
        parseSocketControlMessage buf = .ok ((h, d) :: rest) →
        parseUnixRightsMsg h d = .ok [] → recvFDfromBuf buf = .panic) := by
  refine ⟨?_, ?_, ?_, ?_⟩
  · intro buf e hp
    simp [recvFDfromBuf, hp]
  · intro buf h d rest e hp hr
    simp [recvFDfromBuf, hp, hr]
  · intro buf hb
    have heq : parseSocketControlMessage buf = parseSCMFrom (24 + 1) buf 0 := by
      rw [parseSocketControlMessage, hb]
    rw [heq]
    exact parseSCMFrom_succ_ne_nil 24 buf 0 (by omega)
  · intro buf h d rest hp hr
    simp [recvFDfromBuf, hp, hr]

theorem claim_C4_witness :
    recvFDfromBuf (List.replicate 24 0) = .error .einval :=
  claim_C4.1 (List.replicate 24 0) .einval (by decide)
theorem mem_fst_of_lookup (t : FdTable) (k : Nat) (v : Nat)
    (h : List.lookup k t = some v) : k ∈ t.map Prod.fst := by
  induction t with
  | nil => simp [List.lookup] at h
  | cons p t ih =>
    by_cases hk : k = p.1
    · simp [hk]
    · have hb : (k == p.1) = false := beq_eq_false_iff_ne.mpr hk
      simp only [List.lookup, hb] at h
      simp [ih h]

/-- Claim C2: a successful `SendFD` appends exactly one message to the
socket queue, carrying zero payload bytes and exactly one descriptor's
resource; a `RecvFD` on a pending single-descriptor message consumes exactly
that one message and returns exactly one descriptor. -/
theorem claim_C2 :
    (∀ (w : ChanWorld) (fd : Nat) (w' : ChanWorld),
        SendFD w fd = (.ok (), w') →
        ∃ ino, w'.queue = w.queue ++ [⟨[], [ino]⟩])
    ∧ (∀ (w : ChanWorld) (pl : List Nat) (ino sockIno : Nat) (rest : List Msg),
        List.lookup w.rSock w.receiver.table = some sockIno →
        w.queue = ⟨pl, [ino]⟩ :: rest →
        w.receiver.table.length + 2 < 4294967296 →
        (RecvFD w).2.queue = rest ∧ ∃ fdY, (RecvFD w).1 = .ok fdY) := by
  constructor
  · intro w fd w' h
    cases hsock : List.lookup w.sSock w.sender.table with
    | none =>
      unfold SendFD at h
      rw [hsock] at h
      simp at h
    | some sockIno =>
      cases hfd : List.lookup (fd % 4294967296)
          (addFd w.sender.table (allocFd w.sender.table) sockIno) with
      | none =>
        unfold SendFD at h
        rw [hsock, parseSCM_unixRights_one] at h
        simp [scmRightsFds, u32Chunks_encodeU32, lookupAll, hfd] at h
      | some ino =>
        rw [SendFD_eq w fd sockIno ino hsock hfd] at h
        refine ⟨ino, ?_⟩
        have h2 := congrArg Prod.snd h
        simp at h2
        rw [← h2]
  · intro w pl ino sockIno rest hsock hq hlen
    have hr := RecvFD_eq_one w pl ino sockIno rest hsock hq hlen
    exact ⟨hr.2.2.1, _, hr.1⟩

theorem claim_C2_witness :
    (∃ ino, (SendFD sampleWorld 3).2.queue = sampleWorld.queue ++ [⟨[], [ino]⟩])
    ∧ ((RecvFD sampleWorldQ).2.queue = []
        ∧ ∃ fdY, (RecvFD sampleWorldQ).1 = .ok fdY) :=
  ⟨claim_C2.1 sampleWorld 3 (SendFD sampleWorld 3).2 rfl,
   claim_C2.2 sampleWorldQ [] 100 50 [] rfl rfl (by simp [sampleWorldQ])⟩
/-- Claim C1, refuted in its "distinct integer" part: in `sampleWorld` the
sender passes its descriptor 3 (inode 100); the receiver's kernel assigns the
lowest free descriptor, which is also 3 — the received descriptor equals the
sent one as an integer (while still referring to inode 100 on both sides). -/
theorem claim_C1_counterexample :
    (SendFD sampleWorld 3).1 = .ok ()
    ∧ (RecvFD (SendFD sampleWorld 3).2).1 = .ok 3
    ∧ (ToInode (RecvFD (SendFD sampleWorld 3).2).2.receiver (.fd 3)).1 = .ok 100
    ∧ (ToInode (RecvFD (SendFD sampleWorld 3).2).2.sender (.fd 3)).1 = .ok 100 :=
  ⟨rfl, rfl, rfl, rfl⟩

/-- Claim C1, amended: sending an open descriptor `fdX` over the socket and
then receiving on the peer yields a descriptor `fdY` that is fresh in the
receiver's table (not previously open there — though its integer value may
coincide with `fdX`, which lives in the sender's table), and `toInode` gives
the same inode for `fdY` in the receiver as for `fdX` in the sender. -/
theorem claim_C1 (w : ChanWorld) (fdX inoX sIno rIno : Nat)
    (hq : w.queue = [])
    (hssock : List.lookup w.sSock w.sender.table = some sIno)
    (hfdX : List.lookup fdX w.sender.table = some inoX)
    (hfd32 : fdX < 4294967296)
    (hrsock : List.lookup w.rSock w.receiver.table = some rIno)
    (hrlen : w.receiver.table.length + 2 < 4294967296) :
    ∃ fdY,
      (RecvFD (SendFD w fdX).2).1 = .ok fdY
      ∧ List.lookup fdY w.receiver.table = none
      ∧ (ToInode (RecvFD (SendFD w fdX).2).2.receiver (.fd fdY)).1 = .ok inoX
      ∧ (ToInode (RecvFD (SendFD w fdX).2).2.sender (.fd fdX)).1 = .ok inoX := by
  have hdup : allocFd w.sender.table ∉ w.sender.table.map Prod.fst := (allocFd_spec _).1
  have hfdX_mem : fdX ∈ w.sender.table.map Prod.fst := mem_fst_of_lookup _ _ _ hfdX
  have hne : fdX ≠ allocFd w.sender.table := fun h => hdup (h ▸ hfdX_mem)
  have hfdX' : List.lookup (fdX % 4294967296)
      (addFd w.sender.table (allocFd w.sender.table) sIno) = some inoX := by
    rw [Nat.mod_eq_of_lt hfd32, lookup_addFd, if_neg hne]
    exact hfdX
  have hsend := SendFD_eq w fdX sIno inoX hssock hfdX'
  rw [hsend]
  dsimp only
  obtain ⟨h1, h2, h3, h4⟩ :=
    RecvFD_eq_one
      { w with
        sender := { w.sender with table := addFd w.sender.table (allocFd w.sender.table) sIno },
        queue := w.queue ++ [⟨[], [inoX]⟩] }
      [] inoX rIno [] hrsock (by simp [hq]) hrlen
  dsimp only at h1 h2 h3 h4
  refine ⟨_, h1, ?_, ?_, ?_⟩
  · have hfresh :=
      (allocFd_spec (addFd w.receiver.table (allocFd w.receiver.table) rIno)).1
    apply lookup_eq_none_of_not_mem
    intro hmem
    apply hfresh
    have hmap : List.map Prod.fst (addFd w.receiver.table (allocFd w.receiver.table) rIno)
        = allocFd w.receiver.table :: List.map Prod.fst w.receiver.table := by simp [addFd]
    rw [hmap]
    exact List.mem_cons_of_mem _ hmem
  · dsimp only [ToInode]
    rw [h2]
    simp [statFd, lookup_addFd]
  · dsimp only [ToInode]
    rw [h4]
    dsimp only
    simp [statFd, lookup_addFd, hne, hfdX]

theorem claim_C1_witness :
    ∃ fdY,
      (RecvFD (SendFD sampleWorld 3).2).1 = .ok fdY
      ∧ List.lookup fdY sampleWorld.receiver.table = none
      ∧ (ToInode (RecvFD (SendFD sampleWorld 3).2).2.receiver (.fd fdY)).1 = .ok 100
      ∧ (ToInode (RecvFD (SendFD sampleWorld 3).2).2.sender (.fd 3)).1 = .ok 100 :=
  claim_C1 sampleWorld 3 100 50 50 rfl rfl rfl (by norm_num) rfl (by simp [sampleWorld])
